import Mathlib

/-!
# SOCKS5 relay handler (`protocol/socks/handler.go`)

A shallow embedding of the TCP relay entry point `Handle`, the UDP association
entry point `HandlePacket`, the downlink forwarder `copyWithChannel` and the
datagram framing they share, followed by the properties established for them.

Conventions of the embedding

* a Go `[]byte` made by `make([]byte, n)` is a `List Byte` (length = capacity);
* a Go `int` is an `Int`; an index or slice expression out of range is a
  run-time panic, rendered as `none` / `fault`;
* every call into the network (`ReadTo`, `ReadFrom`, `WriteTo`, `WriteFrom`,
  `Dial`, `Relay`, ...) is an outcome supplied by the environment;
* `utils.MaxAddrLen` is declared outside the translated sources and is a
  parameter `MaxAddrLen : Nat` of every definition that uses it.
-/

set_option autoImplicit false

namespace Socks

/-! ## Bytes, buffers and Go slice expressions -/

abbrev Byte := UInt8

/-- The type `utils.Addr`: a serialized address, a byte slice. -/
abbrev Addr := List Byte

/-- The constant `MaxUDPPacketSize = 4096`. -/
def MaxUDPPacketSize : Nat := 4096

/-- Length of the framing buffer `make([]byte, 3+utils.MaxAddrLen+MaxUDPPacketSize)`. -/
def bufLen (MaxAddrLen : Nat) : Nat := 3 + MaxAddrLen + MaxUDPPacketSize

/-- The buffer `make([]byte, 3+utils.MaxAddrLen+MaxUDPPacketSize)`: all zero. -/
def makeBuf (MaxAddrLen : Nat) : List Byte := List.replicate (bufLen MaxAddrLen) 0

/-- The slice expression `b[lo:hi]`; `none` is the run-time panic
"slice bounds out of range". -/
def goSlice (b : List Byte) (lo hi : Int) : Option (List Byte) :=
  if 0 ≤ lo ∧ lo ≤ hi ∧ hi ≤ (b.length : Int) then
    some ((b.take hi.toNat).drop lo.toNat)
  else none

/-- The statement `copy(b[pos:], src)`: the buffer afterwards and the number of
bytes copied, `min(len(b)-pos, len(src))`; `none` when `b[pos:]` panics. -/
def copyAt (b : List Byte) (pos : Int) (src : List Byte) : Option (List Byte × Nat) :=
  if 0 ≤ pos ∧ pos ≤ (b.length : Int) then
    let k := min src.length (b.length - pos.toNat)
    some (b.take pos.toNat ++ (src.take k ++ b.drop (pos.toNat + k)), k)
  else none

/-- The assignment `b[i] = v`; `none` is the panic "index out of range". -/
def setByte (b : List Byte) (i : Int) (v : Byte) : Option (List Byte) :=
  if 0 ≤ i ∧ i < (b.length : Int) then some (b.set i.toNat v) else none

/-! ## Errors -/

/-- A Go `error` value, as far as the handler inspects it: either the sentinel
`io.EOF` itself, the one value for which `err == io.EOF` holds, or any other
value, of which the handler can observe the text, whether it implements
`net.Error` (and then what `Timeout()` answers), and whether `errors.Is`
matches it with `io.EOF` or `io.ErrClosedPipe`. An error that merely wraps
`io.EOF`, whatever its text, is of the second kind. -/
inductive GoError where
  | eof
  | other (msg : String) (netTimeout : Option Bool) (isEOF : Bool) (isClosedPipe : Bool)
  deriving DecidableEq, Repr

/-- The text `err.Error()`. -/
def GoError.msg : GoError → String
  | .eof => "EOF"
  | .other m _ _ _ => m

/-- The answer of `Timeout()` when the value implements `net.Error`. -/
def GoError.netTimeout : GoError → Option Bool
  | .eof => none
  | .other _ t _ _ => t

/-- The test `errors.Is(err, io.EOF)`. -/
def GoError.isEOF : GoError → Bool
  | .eof => true
  | .other _ _ e _ => e

/-- The test `errors.Is(err, io.ErrClosedPipe)`. -/
def GoError.isClosedPipe : GoError → Bool
  | .eof => false
  | .other _ _ _ c => c

/-- The sentinel `io.EOF`; `err == io.EOF` is `err = ioEOF`. -/
def ioEOF : GoError := .eof

/-- The call `fmt.Errorf(ctx + "%v", err)`: a fresh error carrying the text of
`err` behind the context; it is no `net.Error` and, the verb being `%v`,
`errors.Is` does not see through it. -/
def Errorf (ctx : String) (err : GoError) : GoError :=
  .other (ctx ++ err.msg) none false false

/-- The test `if ne, ok := err.(net.Error); ok { if ne.Timeout() {...} }`. -/
def isTimeout (err : GoError) : Bool := err.netTimeout == some true

/-! ## The downlink forwarder `copyWithChannel` -/

/-- The destination `tgt` that `conn.ReadTo` hands back: either already a
`utils.Addr` (the type assertion succeeds), or some other `net.Addr`, for which
the outcome of `utils.ResolveAddrBuffer(tgt, make([]byte, utils.MaxAddrLen))`
is recorded. -/
inductive Target where
  | typed (a : Addr)
  | other (resolved : Except GoError Addr)

/-- What one pass over lines 176-191 produces before `rc.WriteTo` is called. -/
inductive Frame where
  /-- address resolution failed with this error -/
  | resolveErr (e : GoError)
  /-- the buffer afterwards and the slice `b[offset:3+utils.MaxAddrLen+n]` -/
  | ok (b : List Byte) (dgram : List Byte)
  /-- a run-time panic -/
  | fault

/-- Lines 185-191 of `copyWithChannel`, for the address `addr` and `n` payload
bytes already stored at `b[3+utils.MaxAddrLen:]`. -/
def encodeFrame (MaxAddrLen : Nat) (b : List Byte) (addr : Addr) (n : Nat) :
    Option (List Byte × List Byte) := do
  let offset : Int := (MaxAddrLen : Int) - (addr.length : Int)
  let (b1, _) ← copyAt b (3 + offset) addr
  let b2 ← setByte b1 offset 0
  let b3 ← setByte b2 (offset + 1) 0
  let b4 ← setByte b3 (offset + 2) 0
  let dgram ← goSlice b4 offset (3 + (MaxAddrLen : Int) + (n : Int))
  pure (b4, dgram)

/-- The call `conn.ReadTo(b[3+utils.MaxAddrLen:])` delivering `payload`: the
bytes land behind the header and address regions, `n` is their number. -/
def readTo (MaxAddrLen : Nat) (b : List Byte) (payload : List Byte) :
    Option (List Byte × Nat) :=
  copyAt b (3 + (MaxAddrLen : Int)) payload

/-- Lines 166-191 of `copyWithChannel` for one packet `payload` with
destination `tgt`, on the reused buffer `b`. -/
def frame (MaxAddrLen : Nat) (b : List Byte) (payload : List Byte) (tgt : Target) : Frame :=
  match readTo MaxAddrLen b payload with
  | none => .fault
  | some (b0, n) =>
    match tgt with
    | .other (.error e) => .resolveErr e
    | .other (.ok addr) | .typed addr =>
      match encodeFrame MaxAddrLen b0 addr n with
      | none => .fault
      | some (b4, dgram) => .ok b4 dgram

/-- A buffered channel `make(chan error, cap)`: its capacity and the values
waiting in it. -/
structure Chan where
  cap : Nat
  queue : List (Option GoError)

/-- The send `ch <- v`; `none` when the channel is full and the sender would
have to wait for a receiver. -/
def Chan.send (ch : Chan) (v : Option GoError) : Option Chan :=
  if ch.queue.length < ch.cap then some { ch with queue := ch.queue ++ [v] } else none

/-- The receive `<-ch`; `none` when nothing is waiting in the channel. -/
def Chan.recv (ch : Chan) : Option (Option GoError × Chan) :=
  match ch.queue with
  | [] => none
  | v :: q => some (v, { ch with queue := q })

/-- What the forwarder does, in the order it does it. -/
inductive Action where
  /-- a call of `conn.ReadTo` -/
  | read
  /-- a call of `rc.WriteTo` with this datagram -/
  | write (dgram : List Byte)
  /-- the send `errCh <- v` -/
  | send (v : Option GoError)
  deriving DecidableEq, Repr

/-- What one iteration of the forwarder meets: `conn.ReadTo` fails, or it
delivers a packet for `tgt` and `rc.WriteTo`, if reached, answers `writeErr`. -/
inductive FwdEvent where
  | readErr (e : GoError)
  | packet (payload : List Byte) (tgt : Target) (writeErr : Option GoError)

/-- How a run stands once the given events are used up. -/
inductive Status where
  /-- the function returned -/
  | returned
  /-- a run-time panic -/
  | fault
  /-- waiting to send on a full channel -/
  | blocked
  /-- still in the loop, waiting for the next event -/
  | running
  deriving DecidableEq, Repr

/-- State of the forwarder: actions so far, the channel, and how it stands. -/
structure FwdState where
  trace : List Action
  errCh : Chan
  status : Status

/-- The pair `errCh <- v; break`: after the send the loop is left and the
function returns. -/
def sendAndBreak (ch : Chan) (v : Option GoError) : FwdState :=
  match ch.send v with
  | some ch' => ⟨[.send v], ch', .returned⟩
  | none => ⟨[], ch, .blocked⟩

/-- Put earlier actions in front of a state's trace. -/
def FwdState.after (acts : List Action) (s : FwdState) : FwdState :=
  { s with trace := acts ++ s.trace }

/-- The `for` loop of `copyWithChannel` (lines 165-196) on the buffer `b`. -/
def copyWithChannelLoop (MaxAddrLen : Nat) (ch : Chan) : List Byte → List FwdEvent → FwdState
  | _, [] => ⟨[], ch, .running⟩
  | _, .readErr err :: _ =>
    if err = ioEOF then (sendAndBreak ch none).after [.read]
    else (sendAndBreak ch (some err)).after [.read]
  | b, .packet payload tgt writeErr :: rest =>
    match frame MaxAddrLen b payload tgt with
    | .fault => ⟨[.read], ch, .fault⟩
    | .resolveErr e => (sendAndBreak ch (some (Errorf "resolve addr error: " e))).after [.read]
    | .ok b4 dgram =>
      match writeErr with
      | some err => (sendAndBreak ch (some err)).after [.read, .write dgram]
      | none => (copyWithChannelLoop MaxAddrLen ch b4 rest).after [.read, .write dgram]

/-- The function `copyWithChannel`: a fresh buffer, then the loop. -/
def copyWithChannel (MaxAddrLen : Nat) (errCh : Chan) (evs : List FwdEvent) : FwdState :=
  copyWithChannelLoop MaxAddrLen errCh (makeBuf MaxAddrLen) evs

/-! ## Address decoding -/

/-- Address type tags of the SOCKS5 encapsulation. -/
def AddrTypeIPv4 : Byte := 1
def AddrTypeDomain : Byte := 3
def AddrTypeIPv6 : Byte := 4

/-- Parse error for an input that ends before the address does. -/
def errShortBuffer : GoError := .other "short buffer" none false false

/-- Parse error for an unrecognized address tag. -/
def errAddrType : GoError := .other "address type not supported" none false false

/-- The first `n` bytes of `b` as an address, when there are that many. -/
def takeAddr (b : List Byte) (n : Nat) : Except GoError Addr :=
  if b.length < n then .error errShortBuffer else .ok (b.take n)

/-- Modelled from the spec: `utils.ParseAddr` lives in package `utils`, outside
the translated sources. "Decode: given a byte slice beginning after the 3-byte
header, parse the address tag (IPv4/IPv6/domain) and length, returning the
typed address and the number of bytes consumed; fails with a parse error on
truncated or unrecognized tag bytes." The address returned is the consumed
prefix, so its length is the number of bytes consumed, as `HandlePacket` uses
it (`b[3+len(raddr):n]`). -/
def ParseAddr (b : List Byte) : Except GoError Addr :=
  match b with
  | [] => .error errShortBuffer
  | t :: rest =>
    if t = AddrTypeIPv4 then takeAddr b (1 + 4 + 2)
    else if t = AddrTypeIPv6 then takeAddr b (1 + 16 + 2)
    else if t = AddrTypeDomain then
      match rest with
      | [] => .error errShortBuffer
      | l :: _ => takeAddr b (1 + 1 + l.toNat + 2)
    else .error errAddrType

/-- A serialized address in one of the three forms: IPv4 (tag, 4 bytes, port),
IPv6 (tag, 16 bytes, port) or domain (tag, length byte, that many bytes, port). -/
def validAddr (a : Addr) : Bool :=
  match a with
  | [] => false
  | t :: rest =>
    if t = AddrTypeIPv4 then rest.length == 4 + 2
    else if t = AddrTypeIPv6 then rest.length == 16 + 2
    else if t = AddrTypeDomain then
      match rest with
      | [] => false
      | l :: name => name.length == l.toNat + 2
    else false

/-! ## The receive loop of `HandlePacket` -/

/-- The call `rc.ReadFrom(b)` receiving the datagram `data`: it is stored at
the front of `b`, cut to the buffer's length; `n` is the number of bytes stored. -/
def readFrom (b : List Byte) (data : List Byte) : List Byte × Nat :=
  let n := min data.length b.length
  (data.take n ++ b.drop n, n)

/-- What one iteration of the receive loop meets: `rc.ReadFrom` fails, or a
datagram arrives and `conn.WriteFrom`, if reached, answers `writeErr`. -/
inductive RecvEvent where
  | readErr (e : GoError)
  | packet (data : List Byte) (writeErr : Option GoError)

/-- How the receive loop stands once the given events are used up. -/
inductive LoopEnd where
  /-- left by `break` with this value in `err` -/
  | broke (err : Option GoError)
  /-- a run-time panic -/
  | fault
  /-- still in the loop, waiting for the next datagram -/
  | running
  deriving DecidableEq, Repr

/-- State of the receive loop: the calls `conn.WriteFrom(payload, raddr)` made
so far, and how the loop stands. -/
structure RecvState where
  delivered : List (List Byte × Addr)
  status : LoopEnd

/-- Put earlier deliveries in front of a state's deliveries. -/
def RecvState.after (d : List (List Byte × Addr)) (s : RecvState) : RecvState :=
  { s with delivered := d ++ s.delivered }

/-- The `for` loop of `HandlePacket` (lines 125-149) on the buffer `b`. -/
def recvLoop : List Byte → List RecvEvent → RecvState
  | _, [] => ⟨[], .running⟩
  | _, .readErr er :: _ =>
    if isTimeout er then ⟨[], .broke none⟩
    else ⟨[], .broke (some (Errorf "read packet error: " er))⟩
  | b, .packet data writeErr :: rest =>
    match readFrom b data with
    | (b1, n) =>
      match goSlice b1 3 n with
      | none => ⟨[], .fault⟩
      | some s =>
        match ParseAddr s with
        | .error er => ⟨[], .broke (some (Errorf "parse addr error: " er))⟩
        | .ok raddr =>
          match goSlice b1 (3 + (raddr.length : Int)) n with
          | none => ⟨[], .fault⟩
          | some payload =>
            match writeErr with
            | some er => ⟨[(payload, raddr)], .broke (some (Errorf "write packet error: " er))⟩
            | none => (recvLoop b1 rest).after [(payload, raddr)]

/-! ## `Dial`, `Handle` and `HandlePacket` -/

/-- The connections and sockets a call deals with: the local flow it is given
(`conn`), the connection `Dial` opens to the proxy (`rc` in `Handle`, `c` in
`HandlePacket`), and the datagram socket of `net.ListenPacket`. -/
inductive Res where
  | localFlow
  | proxyConn
  | relaySock
  deriving DecidableEq, Repr

/-- What `Dial` meets: `net.Dial` fails, or it succeeds and `Handshake` fails,
or both succeed. -/
inductive DialEvent where
  | dialErr (e : GoError)
  | handshakeErr (e : GoError)
  | ok

/-- The method `Dial` (lines 41-54): what it opened, what it closed, and the
error it returns (`none` for the `conn, addr, nil` return). -/
structure DialResult where
  opened : List Res
  closed : List Res
  err : Option GoError

def Dial : DialEvent → DialResult
  | .dialErr e => ⟨[], [], some e⟩
  | .handshakeErr e => ⟨[.proxyConn], [], some e⟩
  | .ok => ⟨[.proxyConn], [], none⟩

/-- How a call of `Handle` or `HandlePacket` ends. -/
inductive Outcome where
  /-- it returns this error value (`none` is `nil`) -/
  | returned (err : Option GoError)
  /-- a run-time panic, in the call itself or in the forwarder it started -/
  | fault
  /-- it waits on `errCh` for a forwarder that has not reported -/
  | waiting
  /-- it is still in the receive loop -/
  | running
  deriving DecidableEq, Repr

/-- Record of a call: what was opened during it, the `Close` calls it made (in
order), how many values it received from `errCh`, and how it ended. -/
structure Report where
  opened : List Res
  closed : List Res
  received : Nat
  outcome : Outcome

/-- Lines 65-78 of `Handle`: the classification of what `netstack.Relay`
returned. -/
def relayResult : Option GoError → Option GoError
  | none => none
  | some err =>
    if isTimeout err then none
    else if err.isClosedPipe || err.isEOF then none
    else some (Errorf "relay error: " err)

/-- The method `Handle` (lines 56-79); `relay` is what `netstack.Relay`
returns when it is reached. Deferred calls run last in, first out. -/
def Handle (dial : DialEvent) (relay : Option GoError) : Report :=
  match (Dial dial).err with
  | some err => ⟨(Dial dial).opened, (Dial dial).closed ++ [.localFlow], 0, .returned (some err)⟩
  | none =>
    ⟨(Dial dial).opened, (Dial dial).closed ++ [.proxyConn, .localFlow], 0,
      .returned (relayResult relay)⟩

/-- What a call of `HandlePacket` meets. -/
structure PacketEnv where
  dial : DialEvent
  /-- the error of `utils.ResolveUDPAddr(addr)` -/
  resolve : Option GoError
  /-- the error of `net.ListenPacket("udp", "")` -/
  listen : Option GoError
  /-- what the receive loop meets -/
  recv : List RecvEvent
  /-- what the forwarder meets -/
  fwd : List FwdEvent

/-- Lines 151-160 of `HandlePacket`: the three `Close` calls, the receive from
`errCh`, the choice of the result, and the deferred `Close` calls on return.
`err` is what the loop left, `fwd` the forwarder started on line 122. -/
def finish (err : Option GoError) (fwd : FwdState) : Report :=
  match fwd.errCh.recv with
  | some (v, _) =>
    ⟨[.proxyConn, .relaySock],
      [.localFlow, .relaySock, .proxyConn] ++ [.relaySock, .proxyConn, .localFlow], 1,
      .returned (match err with
        | some e => some e
        | none => v)⟩
  | none =>
    ⟨[.proxyConn, .relaySock], [.localFlow, .relaySock, .proxyConn], 0,
      if fwd.status = .fault then .fault else .waiting⟩

/-- The method `HandlePacket` (lines 99-161). `errCh` is `make(chan error, 1)`;
the forwarder and the receive loop meet their own events and share nothing but
the sockets and the channel. A panic of the forwarder goroutine ends the
process, whatever the receive loop is doing. -/
def HandlePacket (MaxAddrLen : Nat) (env : PacketEnv) : Report :=
  match (Dial env.dial).err with
  | some err =>
    ⟨(Dial env.dial).opened, (Dial env.dial).closed ++ [.localFlow], 0, .returned (some err)⟩
  | none =>
    match env.resolve with
    | some err => ⟨[.proxyConn], [.proxyConn, .localFlow], 0, .returned (some err)⟩
    | none =>
      match env.listen with
      | some err => ⟨[.proxyConn], [.proxyConn, .localFlow], 0, .returned (some err)⟩
      | none =>
        let fwd := copyWithChannel MaxAddrLen ⟨1, []⟩ env.fwd
        let loop := recvLoop (makeBuf MaxAddrLen) env.recv
        match loop.status with
        | .running =>
          ⟨[.proxyConn, .relaySock], [], 0, if fwd.status = .fault then .fault else .running⟩
        | .fault => ⟨[.proxyConn, .relaySock], [.relaySock, .proxyConn, .localFlow], 0, .fault⟩
        | .broke err => finish err fwd

/-! ## Vocabulary of the properties -/

/-- A deadline expiry on a socket: a `net.Error` whose `Timeout()` is true. -/
def errTimeout : GoError := .other "i/o timeout" (some true) false false

/-- A read on a socket that was closed meanwhile: a `net.Error` whose
`Timeout()` is false. -/
def errClosed : GoError :=
  .other "use of closed network connection" (some false) false false

/-- Whether an action is a send on `errCh`. -/
def Action.isSend : Action → Bool
  | .send _ => true
  | _ => false

/-- The trace holds no send on `errCh`. -/
def noSend (tr : List Action) : Prop := ∀ a ∈ tr, a.isSend = false

/-- An association whose relay socket is closed under the receive loop (as the
control watcher does) while the local flow ends with `io.EOF`. -/
def envRelayClosed : PacketEnv := ⟨.ok, none, none, [.readErr errClosed], [.readErr ioEOF]⟩

/-- An idle association: the read deadline of the relay socket expires, and
the local flow, closed after the loop, ends with `io.EOF`. -/
def envIdle : PacketEnv := ⟨.ok, none, none, [.readErr errTimeout], [.readErr ioEOF]⟩

/-- An association in which both deadlines of the relay socket expire: the
receive loop's read, and the forwarder's write of one packet. -/
def envWriteTimeout : PacketEnv :=
  ⟨.ok, none, none, [.readErr errTimeout],
    [.packet [9] (.typed [1, 127, 0, 0, 1, 0, 53]) (some errTimeout)]⟩

/-- An iteration of the forwarder that goes through to the next one: a packet
whose destination address, typed or resolved, is at most `MaxAddrLen` bytes
long, and whose `WriteTo` succeeds. -/
def FwdEvent.passes (MaxAddrLen : Nat) : FwdEvent → Bool
  | .packet _ (.typed a) none | .packet _ (.other (.ok a)) none => decide (a.length ≤ MaxAddrLen)
  | _ => false

/-- How a run of the forwarder ends on an event, and with which value for
`errCh`: `nil` when `ReadTo` returns `io.EOF`; the error itself when `ReadTo`
returns any other error or when `WriteTo` fails; the error wrapped as
"resolve addr error" when the destination cannot be resolved. -/
inductive FwdStop (MaxAddrLen : Nat) : FwdEvent → Option GoError → Prop where
  | eof : FwdStop MaxAddrLen (.readErr ioEOF) none
  | readErr (e : GoError) : e ≠ ioEOF → FwdStop MaxAddrLen (.readErr e) (some e)
  | resolveErr (p : List Byte) (er : GoError) (w : Option GoError) :
    FwdStop MaxAddrLen (.packet p (.other (.error er)) w)
      (some (Errorf "resolve addr error: " er))
  | writeErrTyped (p : List Byte) (a : Addr) (e : GoError) : a.length ≤ MaxAddrLen →
    FwdStop MaxAddrLen (.packet p (.typed a) (some e)) (some e)
  | writeErrOther (p : List Byte) (a : Addr) (e : GoError) : a.length ≤ MaxAddrLen →
    FwdStop MaxAddrLen (.packet p (.other (.ok a)) (some e)) (some e)

/-- The calls one iteration makes before any send: `ReadTo`, and `WriteTo` with
header, address and the payload `ReadTo` stored (at most `MaxUDPPacketSize`
bytes) when the destination has an address. -/
def FwdEvent.acts : FwdEvent → List Action
  | .readErr _ => [.read]
  | .packet _ (.other (.error _)) _ => [.read]
  | .packet p (.typed a) _ | .packet p (.other (.ok a)) _ =>
    [.read, .write (0 :: 0 :: 0 :: (a ++ p.take MaxUDPPacketSize))]

/-- The calls a sequence of iterations makes before any send. -/
def actsOf : List FwdEvent → List Action
  | [] => []
  | ev :: rest => ev.acts ++ actsOf rest

/-- The bytes of a datagram that `rc.ReadFrom(b)` stores in the framing
buffer: all of it, cut to the buffer's length. -/
def stored (MaxAddrLen : Nat) (data : List Byte) : List Byte := data.take (bufLen MaxAddrLen)

/-- An iteration of the receive loop that goes through to the next one: the
datagram stored has at least the 3 header bytes, `ParseAddr` accepts the bytes
behind them, and `WriteFrom` succeeds. -/
def RecvEvent.passes (MaxAddrLen : Nat) : RecvEvent → Bool
  | .packet data none =>
    decide (3 ≤ (stored MaxAddrLen data).length) &&
      (match ParseAddr ((stored MaxAddrLen data).drop 3) with
        | .ok _ => true
        | .error _ => false)
  | _ => false

/-- How the receive loop is left on an event, and with which value in `err`:
nothing for a read timeout; otherwise the wrapped error of a failed `ReadFrom`,
of a failed `ParseAddr` on the bytes behind the header, or of a failed
`WriteFrom`. -/
inductive RecvStop (MaxAddrLen : Nat) : RecvEvent → Option GoError → Prop where
  | timeout (er : GoError) : isTimeout er = true → RecvStop MaxAddrLen (.readErr er) none
  | readErr (er : GoError) : isTimeout er = false →
    RecvStop MaxAddrLen (.readErr er) (some (Errorf "read packet error: " er))
  | parseErr (data : List Byte) (w : Option GoError) (er : GoError) :
    3 ≤ (stored MaxAddrLen data).length →
    ParseAddr ((stored MaxAddrLen data).drop 3) = .error er →
    RecvStop MaxAddrLen (.packet data w) (some (Errorf "parse addr error: " er))
  | writeErr (data : List Byte) (er : GoError) (raddr : Addr) :
    3 ≤ (stored MaxAddrLen data).length →
    ParseAddr ((stored MaxAddrLen data).drop 3) = .ok raddr →
    RecvStop MaxAddrLen (.packet data (some er)) (some (Errorf "write packet error: " er))

/-! ## Buffer lemmas -/

theorem makeBuf_length (M : Nat) : (makeBuf M).length = bufLen M := by
  unfold makeBuf
  rw [List.length_replicate]

theorem copyAt_mid (X Y Z src : List Byte) (h : Y.length = src.length) :
    copyAt (X ++ (Y ++ Z)) (X.length : Int) src = some (X ++ (src ++ Z), src.length) := by
  unfold copyAt
  have h1 : (0 : Int) ≤ (X.length : Int) ∧
      (X.length : Int) ≤ ((X ++ (Y ++ Z)).length : Int) := by
    constructor
    · omega
    · simp only [List.length_append]; omega
  rw [if_pos h1]
  have hk : min src.length ((X ++ (Y ++ Z)).length - X.length) = src.length := by
    simp only [List.length_append]; omega
  have hd : (X ++ (Y ++ Z)).drop (X.length + src.length) = Z := by
    rw [← h, ← List.append_assoc, ← List.length_append, List.drop_left]
  simp only [Int.toNat_ofNat, hk, List.take_left, List.take_length, hd]

theorem setByte_mid (X Z : List Byte) (y v : Byte) :
    setByte (X ++ y :: Z) (X.length : Int) v = some (X ++ v :: Z) := by
  unfold setByte
  have h1 : (0 : Int) ≤ (X.length : Int) ∧ (X.length : Int) < ((X ++ y :: Z).length : Int) := by
    constructor
    · omega
    · simp only [List.length_append, List.length_cons]; omega
  rw [if_pos h1]
  simp

theorem goSlice_mid (X Y Z : List Byte) :
    goSlice (X ++ (Y ++ Z)) (X.length : Int) ((X.length + Y.length : Nat) : Int) = some Y := by
  unfold goSlice
  have h1 : (0 : Int) ≤ (X.length : Int) ∧ (X.length : Int) ≤ ((X.length + Y.length : Nat) : Int) ∧
      ((X.length + Y.length : Nat) : Int) ≤ ((X ++ (Y ++ Z)).length : Int) := by
    refine ⟨by omega, by omega, ?_⟩
    simp only [List.length_append]; omega
  rw [if_pos h1]
  simp only [Int.toNat_ofNat]
  rw [← List.append_assoc, ← List.length_append, List.take_left, List.drop_left]

theorem encodeFrame_split (M n : Nat) (A R P T addr : List Byte) (h0 h1 h2 : Byte)
    (hA : A.length + addr.length = M) (hR : R.length = addr.length) (hP : P.length = n) :
    encodeFrame M (A ++ h0 :: h1 :: h2 :: (R ++ (P ++ T))) addr n =
      some (A ++ 0 :: 0 :: 0 :: (addr ++ (P ++ T)), 0 :: 0 :: 0 :: (addr ++ P)) := by
  have hoff : (M : Int) - (addr.length : Int) = (A.length : Int) := by omega
  have e1 : A ++ h0 :: h1 :: h2 :: (R ++ (P ++ T)) = (A ++ [h0, h1, h2]) ++ (R ++ (P ++ T)) := by
    simp
  have l1 : (3 : Int) + (A.length : Int) = ((A ++ [h0, h1, h2]).length : Int) := by
    simp only [List.length_append, List.length_cons, List.length_nil]; omega
  have c1 := copyAt_mid (A ++ [h0, h1, h2]) R (P ++ T) addr hR
  have e2 : (A ++ [h0, h1, h2]) ++ (addr ++ (P ++ T)) = A ++ h0 :: h1 :: h2 :: (addr ++ (P ++ T)) := by
    simp
  have s1 := setByte_mid A (h1 :: h2 :: (addr ++ (P ++ T))) h0 0
  have s2 := setByte_mid (A ++ [0]) (h2 :: (addr ++ (P ++ T))) h1 0
  have l2 : (A.length : Int) + 1 = ((A ++ [(0 : Byte)]).length : Int) := by
    simp only [List.length_append, List.length_cons, List.length_nil]; omega
  have e3 : A ++ (0 : Byte) :: h1 :: h2 :: (addr ++ (P ++ T)) =
      (A ++ [0]) ++ h1 :: h2 :: (addr ++ (P ++ T)) := by simp
  have s3 := setByte_mid (A ++ [0, 0]) (addr ++ (P ++ T)) h2 0
  have l3 : (A.length : Int) + 2 = ((A ++ [(0 : Byte), 0]).length : Int) := by
    simp only [List.length_append, List.length_cons, List.length_nil]; omega
  have e4 : (A ++ [(0 : Byte)]) ++ 0 :: h2 :: (addr ++ (P ++ T)) =
      (A ++ [0, 0]) ++ h2 :: (addr ++ (P ++ T)) := by simp
  have g := goSlice_mid A (0 :: 0 :: 0 :: (addr ++ P)) T
  have l4 : (3 : Int) + (M : Int) + (n : Int) =
      ((A.length + (0 :: 0 :: 0 :: (addr ++ P)).length : Nat) : Int) := by
    simp only [List.length_append, List.length_cons]; omega
  have e5 : (A ++ [(0 : Byte), 0]) ++ 0 :: (addr ++ (P ++ T)) =
      A ++ ((0 :: 0 :: 0 :: (addr ++ P)) ++ T) := by simp
  unfold encodeFrame
  simp only [hoff, bind, pure]
  rw [e1, l1, c1]
  simp only [Option.bind]
  rw [e2, s1]
  simp only [Option.bind]
  rw [e3, l2, s2]
  simp only [Option.bind]
  rw [e4, l3, s3]
  simp only [Option.bind]
  rw [e5, l4, g]
  simp

theorem exists_split (b : List Byte) (k : Nat) (h : k ≤ b.length) :
    ∃ X Y, b = X ++ Y ∧ X.length = k ∧ Y.length = b.length - k :=
  ⟨b.take k, b.drop k, (List.take_append_drop k b).symm, by simp [h], by simp⟩

/-- On a buffer of the allocated size, with an address that fits its region and
a payload that fits the payload region, `readTo` followed by `encodeFrame`
yields header, address and payload, and the buffer keeps its size. -/
theorem readTo_encodeFrame (M : Nat) (b : List Byte) (addr : Addr) (payload : List Byte)
    (hb : b.length = bufLen M) (ha : addr.length ≤ M)
    (hp : payload.length ≤ MaxUDPPacketSize) :
    ∃ b0 b4, readTo M b payload = some (b0, payload.length) ∧
      encodeFrame M b0 addr payload.length = some (b4, 0 :: 0 :: 0 :: (addr ++ payload)) ∧
      b4.length = bufLen M := by
  unfold bufLen at hb
  obtain ⟨A, r1, rfl, hA, h1⟩ := exists_split b (M - addr.length) (by omega)
  obtain ⟨H, r2, rfl, hH, h2⟩ := exists_split r1 3 (by omega)
  obtain ⟨R, r3, rfl, hR, h3⟩ := exists_split r2 addr.length (by omega)
  obtain ⟨P, T, rfl, hP, h4⟩ := exists_split r3 payload.length (by omega)
  match H, hH with
  | [h0, h1, h2], _ =>
    have e1 : A ++ ([h0, h1, h2] ++ (R ++ (P ++ T))) = (A ++ [h0, h1, h2] ++ R) ++ (P ++ T) := by
      simp
    have l1 : (3 : Int) + (M : Int) = ((A ++ [h0, h1, h2] ++ R).length : Int) := by
      simp only [List.length_append, List.length_cons, List.length_nil]; omega
    have c1 := copyAt_mid (A ++ [h0, h1, h2] ++ R) P T payload hP
    have e2 : (A ++ [h0, h1, h2] ++ R) ++ (payload ++ T) =
        A ++ h0 :: h1 :: h2 :: (R ++ (payload ++ T)) := by simp
    refine ⟨_, _, ?_, encodeFrame_split M payload.length A R payload T addr h0 h1 h2
      (by omega) hR rfl, ?_⟩
    · unfold readTo
      rw [e1, l1, c1, e2]
    · simp only [List.length_append, List.length_cons] at *
      unfold bufLen
      omega

theorem frame_of_addr (M : Nat) (b : List Byte) (addr : Addr) (payload : List Byte)
    (tgt : Target) (hb : b.length = bufLen M) (ha : addr.length ≤ M)
    (hp : payload.length ≤ MaxUDPPacketSize)
    (ht : tgt = .typed addr ∨ tgt = .other (.ok addr)) :
    ∃ b4, frame M b payload tgt = .ok b4 (0 :: 0 :: 0 :: (addr ++ payload)) ∧
      b4.length = bufLen M := by
  obtain ⟨b0, b4, h1, h2, h3⟩ := readTo_encodeFrame M b addr payload hb ha hp
  refine ⟨b4, ?_, h3⟩
  rcases ht with rfl | rfl <;> simp only [frame, h1, h2]

theorem takeAddr_append (A D : List Byte) : takeAddr (A ++ D) A.length = .ok A := by
  unfold takeAddr
  rw [if_neg (by simp), List.take_left]

theorem ParseAddr_append (A D : List Byte) (hv : validAddr A = true) :
    ParseAddr (A ++ D) = .ok A := by
  match A, hv with
  | t :: rest, hv =>
    simp only [validAddr] at hv
    simp only [ParseAddr, List.cons_append]
    split at hv
    · rename_i h4
      rw [if_pos h4]
      have hl : (t :: rest).length = 1 + 4 + 2 := by
        have := beq_iff_eq.mp hv
        simp only [List.length_cons]; omega
      rw [← hl]
      exact takeAddr_append (t :: rest) D
    · rename_i h4
      rw [if_neg h4]
      split at hv
      · rename_i h6
        rw [if_pos h6]
        have hl : (t :: rest).length = 1 + 16 + 2 := by
          have := beq_iff_eq.mp hv
          simp only [List.length_cons]; omega
        rw [← hl]
        exact takeAddr_append (t :: rest) D
      · rename_i h6
        rw [if_neg h6]
        split at hv
        · rename_i h3
          rw [if_pos h3]
          match rest, hv with
          | l :: name, hv =>
            simp only at hv
            have hl : (t :: l :: name).length = 1 + 1 + l.toNat + 2 := by
              have := beq_iff_eq.mp hv
              simp only [List.length_cons]; omega
            simp only [List.cons_append]
            rw [← hl]
            exact takeAddr_append (t :: l :: name) D
        · exact absurd hv (by simp)

theorem readFrom_fits (bu data : List Byte) (h : data.length ≤ bu.length) :
    readFrom bu data = (data ++ bu.drop data.length, data.length) := by
  unfold readFrom
  simp only [Nat.min_eq_left h, List.take_length]

/-- A datagram that fits the buffer and carries, behind any three header bytes,
a valid address `A` and then `D`: the two slice expressions of the receive loop
are `A ++ D` and `D`. -/
theorem recv_slices (bu : List Byte) (h0 h1 h2 : Byte) (A D : List Byte)
    (hfit : 3 + A.length + D.length ≤ bu.length) :
    readFrom bu (h0 :: h1 :: h2 :: (A ++ D)) =
        (h0 :: h1 :: h2 :: (A ++ D) ++ bu.drop (3 + A.length + D.length),
          3 + A.length + D.length) ∧
      goSlice (h0 :: h1 :: h2 :: (A ++ D) ++ bu.drop (3 + A.length + D.length)) 3
        ((3 + A.length + D.length : Nat) : Int) = some (A ++ D) ∧
      goSlice (h0 :: h1 :: h2 :: (A ++ D) ++ bu.drop (3 + A.length + D.length))
        (3 + (A.length : Int)) ((3 + A.length + D.length : Nat) : Int) = some D := by
  have hlen : (h0 :: h1 :: h2 :: (A ++ D)).length = 3 + A.length + D.length := by
    simp only [List.length_cons, List.length_append]; omega
  refine ⟨?_, ?_, ?_⟩
  · rw [readFrom_fits _ _ (by omega), hlen]
  · have g := goSlice_mid [h0, h1, h2] (A ++ D) (bu.drop (3 + A.length + D.length))
    have e : ([h0, h1, h2].length + (A ++ D).length : Nat) = 3 + A.length + D.length := by
      simp only [List.length_cons, List.length_append, List.length_nil]; omega
    rw [e] at g
    simpa using g
  · have g := goSlice_mid ([h0, h1, h2] ++ A) D (bu.drop (3 + A.length + D.length))
    have e : (([h0, h1, h2] ++ A).length + D.length : Nat) = 3 + A.length + D.length := by
      simp only [List.length_cons, List.length_append, List.length_nil]
    have e2 : ((([h0, h1, h2] ++ A).length : Nat) : Int) = 3 + (A.length : Int) := by
      simp only [List.length_cons, List.length_append, List.length_nil]; omega
    rw [e, e2] at g
    simpa using g

/-- One iteration of the receive loop on such a datagram hands `D`, tagged
`A`, to `conn.WriteFrom`, whatever the three header bytes are. -/
theorem recvLoop_packet (bu : List Byte) (h0 h1 h2 : Byte) (A D : List Byte)
    (writeErr : Option GoError) (rest : List RecvEvent)
    (hv : validAddr A = true) (hfit : 3 + A.length + D.length ≤ bu.length) :
    recvLoop bu (.packet (h0 :: h1 :: h2 :: (A ++ D)) writeErr :: rest) =
      match writeErr with
      | some er => ⟨[(D, A)], .broke (some (Errorf "write packet error: " er))⟩
      | none =>
        (recvLoop (h0 :: h1 :: h2 :: (A ++ D) ++ bu.drop (3 + A.length + D.length)) rest).after
          [(D, A)] := by
  obtain ⟨r1, r2, r3⟩ := recv_slices bu h0 h1 h2 A D hfit
  rw [recvLoop, r1]
  simp only [r2, ParseAddr_append A D hv, r3]

/-- The iteration of the forwarder on such a packet calls `ReadTo` and then
`WriteTo` with header, address and payload. -/
theorem copyWithChannelLoop_packet_trace (M : Nat) (ch : Chan) (b : List Byte) (addr : Addr)
    (payload : List Byte) (tgt : Target) (writeErr : Option GoError) (rest : List FwdEvent)
    (hb : b.length = bufLen M) (ha : addr.length ≤ M)
    (hp : payload.length ≤ MaxUDPPacketSize)
    (ht : tgt = .typed addr ∨ tgt = .other (.ok addr)) :
    ∃ tail, (copyWithChannelLoop M ch b (.packet payload tgt writeErr :: rest)).trace =
        .read :: .write (0 :: 0 :: 0 :: (addr ++ payload)) :: tail := by
  obtain ⟨b4, hf, _⟩ := frame_of_addr M b addr payload tgt hb ha hp ht
  rw [copyWithChannelLoop, hf]
  cases writeErr with
  | none => exact ⟨_, rfl⟩
  | some e => exact ⟨_, rfl⟩

theorem encodeFrame_long_addr (M : Nat) (b : List Byte) (addr : Addr) (n : Nat)
    (h : M < addr.length) : encodeFrame M b addr n = none := by
  unfold encodeFrame
  cases hc : copyAt b (3 + ((M : Int) - (addr.length : Int))) addr with
  | none => simp only [bind, Option.bind, hc]
  | some r =>
    have hs : setByte r.1 ((M : Int) - (addr.length : Int)) 0 = none := by
      unfold setByte
      rw [if_neg (by omega)]
    simp only [bind, Option.bind, hc, hs]

theorem readTo_some (M : Nat) (b payload : List Byte) (hb : b.length = bufLen M) :
    ∃ r, readTo M b payload = some r := by
  unfold readTo copyAt
  rw [if_pos (by rw [hb]; unfold bufLen; omega)]
  exact ⟨_, rfl⟩

theorem copyAt_take (b : List Byte) (pos : Int) (src : List Byte) :
    copyAt b pos (src.take (b.length - pos.toNat)) = copyAt b pos src := by
  unfold copyAt
  split
  · have h1 : min (src.take (b.length - pos.toNat)).length (b.length - pos.toNat) =
        min src.length (b.length - pos.toNat) := by
      rw [List.length_take]; omega
    have h2 : (src.take (b.length - pos.toNat)).take (min src.length (b.length - pos.toNat)) =
        src.take (min src.length (b.length - pos.toNat)) := by
      rw [List.take_take]
      congr 1
      omega
    simp only [h1, h2]
  · rfl

theorem readTo_take (M : Nat) (b payload : List Byte) (hb : b.length = bufLen M) :
    readTo M b (payload.take MaxUDPPacketSize) = readTo M b payload := by
  have h := copyAt_take b (3 + (M : Int)) payload
  have hl : b.length - (3 + (M : Int)).toNat = MaxUDPPacketSize := by
    rw [hb]; unfold bufLen; omega
  rw [hl] at h
  exact h

theorem frame_take (M : Nat) (b payload : List Byte) (tgt : Target) (hb : b.length = bufLen M) :
    frame M b (payload.take MaxUDPPacketSize) tgt = frame M b payload tgt := by
  unfold frame
  rw [readTo_take M b payload hb]

/-- A destination with an address of at most `MaxAddrLen` bytes: the iteration
builds header, address and the stored payload, and the buffer keeps its size. -/
theorem frame_fits (M : Nat) (b : List Byte) (a : Addr) (payload : List Byte) (tgt : Target)
    (hb : b.length = bufLen M) (ha : a.length ≤ M)
    (ht : tgt = .typed a ∨ tgt = .other (.ok a)) :
    ∃ b4, frame M b payload tgt = .ok b4 (0 :: 0 :: 0 :: (a ++ payload.take MaxUDPPacketSize)) ∧
      b4.length = bufLen M := by
  rw [← frame_take M b payload tgt hb]
  exact frame_of_addr M b a (payload.take MaxUDPPacketSize) tgt hb ha
    (List.length_take_le _ _) ht

/-- A destination with an address longer than `MaxAddrLen`: the iteration
panics. -/
theorem frame_long (M : Nat) (b : List Byte) (a : Addr) (payload : List Byte) (tgt : Target)
    (hb : b.length = bufLen M) (ha : M < a.length)
    (ht : tgt = .typed a ∨ tgt = .other (.ok a)) :
    frame M b payload tgt = .fault := by
  obtain ⟨r, hr⟩ := readTo_some M b payload hb
  rcases ht with rfl | rfl <;> simp only [frame, hr, encodeFrame_long_addr M r.1 a r.2 ha]

theorem frame_resolveErr (M : Nat) (b : List Byte) (payload : List Byte) (e : GoError)
    (hb : b.length = bufLen M) :
    frame M b payload (.other (.error e)) = .resolveErr e := by
  obtain ⟨r, hr⟩ := readTo_some M b payload hb
  simp only [frame, hr]

theorem sendAndBreak_room (v : Option GoError) :
    sendAndBreak ⟨1, []⟩ v = ⟨[.send v], ⟨1, [v]⟩, .returned⟩ := rfl

theorem noSend_acts (ev : FwdEvent) : noSend ev.acts := by
  intro a ha
  match ev, ha with
  | .readErr _, ha =>
    simp only [FwdEvent.acts, List.mem_singleton] at ha
    subst ha; rfl
  | .packet _ (.other (.error _)) _, ha =>
    simp only [FwdEvent.acts, List.mem_singleton] at ha
    subst ha; rfl
  | .packet _ (.typed _) _, ha =>
    simp only [FwdEvent.acts, List.mem_cons, List.mem_nil_iff, or_false] at ha
    rcases ha with rfl | rfl <;> rfl
  | .packet _ (.other (.ok _)) _, ha =>
    simp only [FwdEvent.acts, List.mem_cons, List.mem_nil_iff, or_false] at ha
    rcases ha with rfl | rfl <;> rfl

theorem noSend_append (t1 t2 : List Action) (h1 : noSend t1) (h2 : noSend t2) :
    noSend (t1 ++ t2) := by
  intro a ha
  rcases List.mem_append.mp ha with h | h
  · exact h1 a h
  · exact h2 a h

theorem noSend_actsOf (evs : List FwdEvent) : noSend (actsOf evs) := by
  induction evs with
  | nil => intro a ha; simp [actsOf] at ha
  | cons ev rest ih => exact noSend_append _ _ (noSend_acts ev) ih

theorem actsOf_append (xs ys : List FwdEvent) : actsOf (xs ++ ys) = actsOf xs ++ actsOf ys := by
  induction xs with
  | nil => rfl
  | cons x rest ih =>
    show x.acts ++ actsOf (rest ++ ys) = (x.acts ++ actsOf rest) ++ actsOf ys
    rw [ih, List.append_assoc]

/-- An iteration that goes through: its calls, then the loop again on a buffer
of the same size. -/
theorem copyWithChannelLoop_pass (M : Nat) (ch : Chan) (b : List Byte) (ev : FwdEvent)
    (hb : b.length = bufLen M) (hp : ev.passes M = true) :
    ∃ b4, b4.length = bufLen M ∧ ∀ rest,
      copyWithChannelLoop M ch b (ev :: rest) =
        (copyWithChannelLoop M ch b4 rest).after ev.acts := by
  match ev, hp with
  | .packet payload (.typed a) none, hp =>
    simp only [FwdEvent.passes, decide_eq_true_eq] at hp
    obtain ⟨b4, hf, hb4⟩ := frame_fits M b a payload (.typed a) hb hp (Or.inl rfl)
    refine ⟨b4, hb4, fun rest => ?_⟩
    rw [copyWithChannelLoop, hf]
    rfl
  | .packet payload (.other (.ok a)) none, hp =>
    simp only [FwdEvent.passes, decide_eq_true_eq] at hp
    obtain ⟨b4, hf, hb4⟩ := frame_fits M b a payload (.other (.ok a)) hb hp (Or.inr rfl)
    refine ⟨b4, hb4, fun rest => ?_⟩
    rw [copyWithChannelLoop, hf]
    rfl

/-- An iteration on which the run ends: its calls, the one send, the return. -/
theorem copyWithChannelLoop_stop_one (M : Nat) (b : List Byte) (last : FwdEvent)
    (v : Option GoError) (post : List FwdEvent) (hb : b.length = bufLen M)
    (hs : FwdStop M last v) :
    copyWithChannelLoop M ⟨1, []⟩ b (last :: post) =
      ⟨last.acts ++ [.send v], ⟨1, [v]⟩, .returned⟩ := by
  cases hs with
  | eof =>
    rw [copyWithChannelLoop, if_pos rfl, sendAndBreak_room]
    rfl
  | readErr e he =>
    rw [copyWithChannelLoop, if_neg he, sendAndBreak_room]
    rfl
  | resolveErr p er w =>
    rw [copyWithChannelLoop, frame_resolveErr M b p er hb]
    simp only [sendAndBreak_room]
    rfl
  | writeErrTyped p a e ha =>
    obtain ⟨b4, hf, _⟩ := frame_fits M b a p (.typed a) hb ha (Or.inl rfl)
    rw [copyWithChannelLoop, hf]
    simp only [sendAndBreak_room]
    rfl
  | writeErrOther p a e ha =>
    obtain ⟨b4, hf, _⟩ := frame_fits M b a p (.other (.ok a)) hb ha (Or.inr rfl)
    rw [copyWithChannelLoop, hf]
    simp only [sendAndBreak_room]
    rfl

/-- A run that goes through `pre` and ends on `last`: the calls of all these
iterations, then the one send, then the return. -/
theorem copyWithChannelLoop_stop (M : Nat) (last : FwdEvent) (v : Option GoError)
    (post : List FwdEvent) (hs : FwdStop M last v) (pre : List FwdEvent) :
    ∀ b : List Byte, b.length = bufLen M → (∀ ev ∈ pre, ev.passes M = true) →
      copyWithChannelLoop M ⟨1, []⟩ b (pre ++ last :: post) =
        ⟨actsOf (pre ++ [last]) ++ [.send v], ⟨1, [v]⟩, .returned⟩ := by
  induction pre with
  | nil =>
    intro b hb _
    rw [List.nil_append, copyWithChannelLoop_stop_one M b last v post hb hs]
    simp [actsOf]
  | cons ev rest ih =>
    intro b hb hall
    obtain ⟨b4, hb4, hstep⟩ :=
      copyWithChannelLoop_pass M ⟨1, []⟩ b ev hb (hall ev (List.mem_cons_self _ _))
    rw [List.cons_append, hstep, ih b4 hb4 (fun x hx => hall x (List.mem_cons_of_mem _ hx))]
    simp [FwdState.after, actsOf]

theorem copyWithChannelLoop_long (M : Nat) (ch : Chan) (b : List Byte) (a : Addr)
    (payload : List Byte) (tgt : Target) (w : Option GoError) (rest : List FwdEvent)
    (hb : b.length = bufLen M) (ha : M < a.length)
    (ht : tgt = .typed a ∨ tgt = .other (.ok a)) :
    copyWithChannelLoop M ch b (.packet payload tgt w :: rest) = ⟨[.read], ch, .fault⟩ := by
  rw [copyWithChannelLoop, frame_long M b a payload tgt hb ha ht]

theorem noSend_read : noSend [Action.read] := by
  intro a ha
  simp only [List.mem_singleton] at ha
  subst ha; rfl

/-- Every run of the forwarder's loop on a fresh channel of capacity 1 either
goes through some iterations and ends on an event with its value, or has not
returned (it is waiting for the next packet, or it panicked) and has sent
nothing. -/
theorem copyWithChannelLoop_runs (M : Nat) (evs : List FwdEvent) :
    ∀ b : List Byte, b.length = bufLen M →
      (∃ pre last post v, evs = pre ++ last :: post ∧ (∀ ev ∈ pre, ev.passes M = true) ∧
        FwdStop M last v) ∨
      (((copyWithChannelLoop M ⟨1, []⟩ b evs).status = .running ∨
          (copyWithChannelLoop M ⟨1, []⟩ b evs).status = .fault) ∧
        noSend (copyWithChannelLoop M ⟨1, []⟩ b evs).trace ∧
        (copyWithChannelLoop M ⟨1, []⟩ b evs).errCh.queue = []) := by
  have through : ∀ (ev : FwdEvent) (rest : List FwdEvent) (b : List Byte),
      b.length = bufLen M → ev.passes M = true →
      (∀ b4 : List Byte, b4.length = bufLen M →
        (∃ pre last post v, rest = pre ++ last :: post ∧ (∀ x ∈ pre, x.passes M = true) ∧
          FwdStop M last v) ∨
        (((copyWithChannelLoop M ⟨1, []⟩ b4 rest).status = .running ∨
            (copyWithChannelLoop M ⟨1, []⟩ b4 rest).status = .fault) ∧
          noSend (copyWithChannelLoop M ⟨1, []⟩ b4 rest).trace ∧
          (copyWithChannelLoop M ⟨1, []⟩ b4 rest).errCh.queue = [])) →
      (∃ pre last post v, ev :: rest = pre ++ last :: post ∧
          (∀ x ∈ pre, x.passes M = true) ∧ FwdStop M last v) ∨
        (((copyWithChannelLoop M ⟨1, []⟩ b (ev :: rest)).status = .running ∨
            (copyWithChannelLoop M ⟨1, []⟩ b (ev :: rest)).status = .fault) ∧
          noSend (copyWithChannelLoop M ⟨1, []⟩ b (ev :: rest)).trace ∧
          (copyWithChannelLoop M ⟨1, []⟩ b (ev :: rest)).errCh.queue = []) := by
    intro ev rest b hb hp ih
    obtain ⟨b4, hb4, hstep⟩ := copyWithChannelLoop_pass M ⟨1, []⟩ b ev hb hp
    rcases ih b4 hb4 with ⟨pre, last, post, v, hevs, hpre, hs⟩ | ⟨hst, hns, hq⟩
    · left
      refine ⟨ev :: pre, last, post, v, by rw [hevs]; rfl, ?_, hs⟩
      intro x hx
      rcases List.mem_cons.mp hx with rfl | hx
      · exact hp
      · exact hpre x hx
    · right
      rw [hstep rest]
      exact ⟨hst, noSend_append _ _ (noSend_acts ev) hns, hq⟩
  induction evs with
  | nil =>
    intro b _
    right
    refine ⟨Or.inl rfl, ?_, rfl⟩
    intro a ha
    simp [copyWithChannelLoop] at ha
  | cons ev rest ih =>
    intro b hb
    match ev with
    | .readErr e =>
      left
      by_cases he : e = ioEOF
      · subst he
        exact ⟨[], _, rest, none, rfl, by simp, .eof⟩
      · exact ⟨[], _, rest, some e, rfl, by simp, .readErr e he⟩
    | .packet p (.other (.error er)) w =>
      left
      exact ⟨[], _, rest, _, rfl, by simp, .resolveErr p er w⟩
    | .packet p (.typed a) w =>
      by_cases ha : a.length ≤ M
      · match w with
        | some e =>
          left
          exact ⟨[], _, rest, some e, rfl, by simp, .writeErrTyped p a e ha⟩
        | none =>
          exact through _ rest b hb (by simp [FwdEvent.passes, ha]) ih
      · right
        rw [copyWithChannelLoop_long M ⟨1, []⟩ b a p (.typed a) w rest hb (by omega) (Or.inl rfl)]
        exact ⟨Or.inr rfl, noSend_read, rfl⟩
    | .packet p (.other (.ok a)) w =>
      by_cases ha : a.length ≤ M
      · match w with
        | some e =>
          left
          exact ⟨[], _, rest, some e, rfl, by simp, .writeErrOther p a e ha⟩
        | none =>
          exact through _ rest b hb (by simp [FwdEvent.passes, ha]) ih
      · right
        rw [copyWithChannelLoop_long M ⟨1, []⟩ b a p (.other (.ok a)) w rest hb (by omega)
          (Or.inr rfl)]
        exact ⟨Or.inr rfl, noSend_read, rfl⟩

theorem takeAddr_ok (b : List Byte) (n : Nat) (a : Addr) (h : takeAddr b n = .ok a) :
    ∃ D, b = a ++ D := by
  unfold takeAddr at h
  split at h
  · exact absurd h (by simp)
  · simp only [Except.ok.injEq] at h
    exact ⟨b.drop n, by rw [← h, List.take_append_drop]⟩

/-- The address that `ParseAddr` returns is a prefix of its input. -/
theorem ParseAddr_prefix (s : List Byte) (a : Addr) (h : ParseAddr s = .ok a) :
    ∃ D, s = a ++ D := by
  unfold ParseAddr at h
  split at h
  · exact absurd h (by simp)
  · rename_i t rest
    split at h
    · exact takeAddr_ok _ _ _ h
    · split at h
      · exact takeAddr_ok _ _ _ h
      · split at h
        · split at h
          · exact absurd h (by simp)
          · exact takeAddr_ok _ _ _ h
        · exact absurd h (by simp)

theorem readFrom_take (b data : List Byte) :
    readFrom b (data.take b.length) = readFrom b data := by
  unfold readFrom
  have h1 : min (data.take b.length).length b.length = min data.length b.length := by
    rw [List.length_take]; omega
  have h2 : (data.take b.length).take (min data.length b.length) =
      data.take (min data.length b.length) := by
    rw [List.take_take]
    congr 1
    omega
  simp only [h1, h2]

theorem recvLoop_take (b data : List Byte) (w : Option GoError) (rest : List RecvEvent) :
    recvLoop b (.packet (data.take b.length) w :: rest) = recvLoop b (.packet data w :: rest) := by
  rw [recvLoop, recvLoop, readFrom_take]

theorem recvLoop_parse_error (bu : List Byte) (h0 h1 h2 : Byte) (body : List Byte)
    (er : GoError) (writeErr : Option GoError) (rest : List RecvEvent)
    (hfit : 3 + body.length ≤ bu.length) (hp : ParseAddr body = .error er) :
    recvLoop bu (.packet (h0 :: h1 :: h2 :: body) writeErr :: rest) =
      ⟨[], .broke (some (Errorf "parse addr error: " er))⟩ := by
  obtain ⟨r1, r2, _⟩ := recv_slices bu h0 h1 h2 body [] (by simpa using hfit)
  simp only [List.append_nil] at r1 r2
  rw [recvLoop, r1]
  simp only [r2, hp]

theorem recvLoop_short (b data : List Byte) (w : Option GoError) (rest : List RecvEvent)
    (hn : data.length < 3) : recvLoop b (.packet data w :: rest) = ⟨[], .fault⟩ := by
  have hs : goSlice (readFrom b data).1 3 (readFrom b data).2 = none := by
    unfold goSlice readFrom
    rw [if_neg]
    intro h
    have := h.2.1
    simp only [Nat.cast_min] at this
    omega
  rw [recvLoop]
  simp only [hs]

theorem recvLoop_parsed (bu : List Byte) (h0 h1 h2 : Byte) (A D : List Byte)
    (writeErr : Option GoError) (rest : List RecvEvent)
    (hp : ParseAddr (A ++ D) = .ok A) (hfit : 3 + A.length + D.length ≤ bu.length) :
    recvLoop bu (.packet (h0 :: h1 :: h2 :: (A ++ D)) writeErr :: rest) =
      match writeErr with
      | some er => ⟨[(D, A)], .broke (some (Errorf "write packet error: " er))⟩
      | none =>
        (recvLoop (h0 :: h1 :: h2 :: (A ++ D) ++ bu.drop (3 + A.length + D.length)) rest).after
          [(D, A)] := by
  obtain ⟨r1, r2, r3⟩ := recv_slices bu h0 h1 h2 A D hfit
  rw [recvLoop, r1]
  simp only [r2, hp, r3]

/-- One iteration of the receive loop on a buffer of the allocated size, by
what `ReadFrom` stored: fewer than 3 bytes, a panic; bytes behind the header
that `ParseAddr` turns down, the wrapped parse error; otherwise the delivery of
the bytes behind the address, and the wrapped error of a failed `WriteFrom`. -/
theorem recvLoop_step (M : Nat) (b data : List Byte) (w : Option GoError)
    (rest : List RecvEvent) (hb : b.length = bufLen M) :
    recvLoop b (.packet data w :: rest) =
      if (stored M data).length < 3 then ⟨[], .fault⟩
      else
        match ParseAddr ((stored M data).drop 3) with
        | .error er => ⟨[], .broke (some (Errorf "parse addr error: " er))⟩
        | .ok raddr =>
          match w with
          | some er =>
            ⟨[(((stored M data).drop 3).drop raddr.length, raddr)],
              .broke (some (Errorf "write packet error: " er))⟩
          | none =>
            (recvLoop (stored M data ++ b.drop (stored M data).length) rest).after
              [(((stored M data).drop 3).drop raddr.length, raddr)] := by
  rw [← recvLoop_take, hb]
  show recvLoop b (.packet (stored M data) w :: rest) = _
  have hle : (stored M data).length ≤ b.length := by
    rw [hb]; unfold stored; exact List.length_take_le _ _
  generalize stored M data = s at hle ⊢
  by_cases h3 : s.length < 3
  · rw [if_pos h3]
    exact recvLoop_short b s w rest h3
  · rw [if_neg h3]
    have hform : ∃ h0 h1 h2 body, s = h0 :: h1 :: h2 :: body := by
      match s, h3 with
      | [], h => exact absurd (by simp) h
      | [_], h => exact absurd (by simp) h
      | [_, _], h => exact absurd (by simp) h
      | h0 :: h1 :: h2 :: body, _ => exact ⟨h0, h1, h2, body, rfl⟩
    obtain ⟨h0, h1, h2, body, rfl⟩ := hform
    simp only [List.drop_succ_cons, List.drop_zero]
    cases hp : ParseAddr body with
    | error er =>
      exact recvLoop_parse_error b h0 h1 h2 body er w rest
        (by simp only [List.length_cons] at hle; omega) hp
    | ok raddr =>
      obtain ⟨D, rfl⟩ := ParseAddr_prefix body raddr hp
      have hfit : 3 + raddr.length + D.length ≤ b.length := by
        simp only [List.length_cons, List.length_append] at hle; omega
      rw [recvLoop_parsed b h0 h1 h2 raddr D w rest hp hfit]
      have hl : (h0 :: h1 :: h2 :: (raddr ++ D)).length = 3 + raddr.length + D.length := by
        simp only [List.length_cons, List.length_append]; omega
      simp only [List.drop_left, hl]

theorem stored_buffer_length (M : Nat) (b data : List Byte) (hb : b.length = bufLen M) :
    (stored M data ++ b.drop (stored M data).length).length = bufLen M := by
  have hle : (stored M data).length ≤ bufLen M := by
    unfold stored; exact List.length_take_le _ _
  rw [List.length_append, List.length_drop, hb]
  omega

/-- An iteration of the receive loop that goes through: one delivery, then the
loop again on a buffer of the same size. -/
theorem recvLoop_pass (M : Nat) (b : List Byte) (ev : RecvEvent)
    (hb : b.length = bufLen M) (hp : ev.passes M = true) :
    ∃ b1 d, b1.length = bufLen M ∧ ∀ rest,
      recvLoop b (ev :: rest) = (recvLoop b1 rest).after [d] := by
  match ev, hp with
  | .packet data none, hp =>
    simp only [RecvEvent.passes, Bool.and_eq_true, decide_eq_true_eq] at hp
    obtain ⟨h3, hparse⟩ := hp
    cases hpa : ParseAddr ((stored M data).drop 3) with
    | error er => simp [hpa] at hparse
    | ok raddr =>
      refine ⟨stored M data ++ b.drop (stored M data).length,
        (((stored M data).drop 3).drop raddr.length, raddr),
        stored_buffer_length M b data hb, fun rest => ?_⟩
      rw [recvLoop_step M b data none rest hb, if_neg (by omega)]
      simp only [hpa]

/-- An event on which the receive loop is left: `err` holds its value. -/
theorem recvLoop_stop_one (M : Nat) (b : List Byte) (last : RecvEvent)
    (err : Option GoError) (post : List RecvEvent) (hb : b.length = bufLen M)
    (hs : RecvStop M last err) :
    (recvLoop b (last :: post)).status = .broke err := by
  cases hs with
  | timeout er ht => rw [recvLoop, if_pos ht]
  | readErr er ht => rw [recvLoop, if_neg (by simp [ht])]
  | parseErr data w er h3 hp =>
    rw [recvLoop_step M b data w post hb, if_neg (by omega)]
    simp only [hp]
  | writeErr data er raddr h3 hp =>
    rw [recvLoop_step M b data (some er) post hb, if_neg (by omega)]
    simp only [hp]

/-- A receive loop that goes through `pre` and is left on `last`. -/
theorem recvLoop_stop (M : Nat) (last : RecvEvent) (err : Option GoError)
    (post : List RecvEvent) (hs : RecvStop M last err) (pre : List RecvEvent) :
    ∀ b : List Byte, b.length = bufLen M → (∀ ev ∈ pre, ev.passes M = true) →
      (recvLoop b (pre ++ last :: post)).status = .broke err := by
  induction pre with
  | nil =>
    intro b hb _
    exact recvLoop_stop_one M b last err post hb hs
  | cons ev rest ih =>
    intro b hb hall
    obtain ⟨b1, d, hb1, hstep⟩ := recvLoop_pass M b ev hb (hall ev (List.mem_cons_self _ _))
    rw [List.cons_append, hstep]
    exact ih b1 hb1 (fun x hx => hall x (List.mem_cons_of_mem _ hx))

/-- A receive loop that was left by `break` went through some iterations and
was left on an event that accounts for the value in `err`. -/
theorem recvLoop_broke (M : Nat) (evs : List RecvEvent) :
    ∀ (b : List Byte) (err : Option GoError), b.length = bufLen M →
      (recvLoop b evs).status = .broke err →
      ∃ pre last post, evs = pre ++ last :: post ∧ (∀ ev ∈ pre, ev.passes M = true) ∧
        RecvStop M last err := by
  induction evs with
  | nil =>
    intro b err _ h
    simp [recvLoop] at h
  | cons ev rest ih =>
    intro b err hb h
    match ev with
    | .readErr er =>
      rw [recvLoop] at h
      by_cases ht : isTimeout er = true
      · rw [if_pos ht] at h
        simp only [LoopEnd.broke.injEq] at h
        subst h
        exact ⟨[], _, rest, rfl, by simp, .timeout er ht⟩
      · rw [if_neg ht] at h
        simp only [LoopEnd.broke.injEq] at h
        subst h
        exact ⟨[], _, rest, rfl, by simp, .readErr er (by simpa using ht)⟩
    | .packet data w =>
      rw [recvLoop_step M b data w rest hb] at h
      by_cases h3 : (stored M data).length < 3
      · rw [if_pos h3] at h
        exact absurd h (by simp)
      · rw [if_neg h3] at h
        cases hp : ParseAddr ((stored M data).drop 3) with
        | error er =>
          simp only [hp, LoopEnd.broke.injEq] at h
          subst h
          exact ⟨[], _, rest, rfl, by simp, .parseErr data w er (by omega) hp⟩
        | ok raddr =>
          match w with
          | some er =>
            simp only [hp, LoopEnd.broke.injEq] at h
            subst h
            exact ⟨[], _, rest, rfl, by simp, .writeErr data er raddr (by omega) hp⟩
          | none =>
            simp only [hp, RecvState.after] at h
            obtain ⟨pre, last, post, hevs, hpre, hs⟩ :=
              ih _ err (stored_buffer_length M b data hb) h
            refine ⟨.packet data none :: pre, last, post, by rw [hevs]; rfl, ?_, hs⟩
            intro x hx
            rcases List.mem_cons.mp hx with rfl | hx
            · simp only [RecvEvent.passes, Bool.and_eq_true, decide_eq_true_eq, hp, and_true]
              omega
            · exact hpre x hx

/-- Either the forwarder has returned, after ending on an event whose value is
its one send and waits in the channel, or it has not returned and has sent
nothing. -/
theorem copyWithChannel_report (M : Nat) (evs : List FwdEvent) :
    ((copyWithChannel M ⟨1, []⟩ evs).status = .returned ∧
      ∃ pre last post v, evs = pre ++ last :: post ∧ (∀ ev ∈ pre, ev.passes M = true) ∧
        FwdStop M last v ∧
        (copyWithChannel M ⟨1, []⟩ evs).trace = actsOf (pre ++ [last]) ++ [.send v] ∧
        (copyWithChannel M ⟨1, []⟩ evs).errCh.queue = [v]) ∨
    (((copyWithChannel M ⟨1, []⟩ evs).status = .running ∨
        (copyWithChannel M ⟨1, []⟩ evs).status = .fault) ∧
      noSend (copyWithChannel M ⟨1, []⟩ evs).trace ∧
      (copyWithChannel M ⟨1, []⟩ evs).errCh.queue = []) := by
  unfold copyWithChannel
  rcases copyWithChannelLoop_runs M evs (makeBuf M) (makeBuf_length M) with
    ⟨pre, last, post, v, hevs, hpre, hs⟩ | h
  · left
    have hr := copyWithChannelLoop_stop M last v post hs pre (makeBuf M) (makeBuf_length M) hpre
    rw [← hevs] at hr
    exact ⟨by rw [hr], pre, last, post, v, hevs, hpre, hs, by rw [hr], by rw [hr]⟩
  · exact Or.inr h

/-- The forwarder's value when it ended on `last` after going through `pre`. -/
theorem copyWithChannel_stop (M : Nat) (pre : List FwdEvent) (last : FwdEvent)
    (post : List FwdEvent) (v : Option GoError) (hpre : ∀ ev ∈ pre, ev.passes M = true)
    (hs : FwdStop M last v) :
    copyWithChannel M ⟨1, []⟩ (pre ++ last :: post) =
      ⟨actsOf (pre ++ [last]) ++ [.send v], ⟨1, [v]⟩, .returned⟩ :=
  copyWithChannelLoop_stop M last v post hs pre (makeBuf M) (makeBuf_length M) hpre

theorem HandlePacket_active (M : Nat) (env : PacketEnv) (err : Option GoError)
    (hd : (Dial env.dial).err = none) (hr : env.resolve = none) (hl : env.listen = none)
    (hs : (recvLoop (makeBuf M) env.recv).status = .broke err) :
    HandlePacket M env = finish err (copyWithChannel M ⟨1, []⟩ env.fwd) := by
  simp only [HandlePacket, hd, hr, hl, hs]

theorem finish_sent (err v : Option GoError) (fwd : FwdState) (hq : fwd.errCh.queue = [v]) :
    (finish err fwd).received = 1 ∧
      (∀ e, err = some e → (finish err fwd).outcome = .returned (some e)) ∧
      (err = none → (finish err fwd).outcome = .returned v) := by
  have hrecv : fwd.errCh.recv = some (v, ⟨fwd.errCh.cap, []⟩) := by
    simp only [Chan.recv, hq]
  refine ⟨?_, ?_, ?_⟩
  · simp only [finish, hrecv]
  · intro e he
    subst he
    simp only [finish, hrecv]
  · intro he
    subst he
    simp only [finish, hrecv]

theorem finish_silent (err : Option GoError) (fwd : FwdState) (hq : fwd.errCh.queue = []) :
    (finish err fwd).received = 0 ∧ ∀ r, (finish err fwd).outcome ≠ .returned r := by
  have hrecv : fwd.errCh.recv = none := by
    simp only [Chan.recv, hq]
  refine ⟨by simp only [finish, hrecv], fun r => ?_⟩
  simp only [finish, hrecv]
  split <;> simp

/-- The result of `HandlePacket` is `nil` exactly when the association was set
up, the receive loop was left with nothing captured, and `nil` is the value
waiting in `errCh`. -/
theorem HandlePacket_nil (M : Nat) (env : PacketEnv) :
    (HandlePacket M env).outcome = .returned none ↔
      (Dial env.dial).err = none ∧ env.resolve = none ∧ env.listen = none ∧
        (recvLoop (makeBuf M) env.recv).status = .broke none ∧
        (copyWithChannel M ⟨1, []⟩ env.fwd).errCh.queue = [none] := by
  cases hd : (Dial env.dial).err with
  | some e => simp [HandlePacket, hd]
  | none =>
    cases hr : env.resolve with
    | some e => simp [HandlePacket, hd, hr]
    | none =>
      cases hl : env.listen with
      | some e => simp [HandlePacket, hd, hr, hl]
      | none =>
        cases hs : (recvLoop (makeBuf M) env.recv).status with
        | running =>
          simp only [HandlePacket, hd, hr, hl, hs]
          split <;> simp
        | fault => simp [HandlePacket, hd, hr, hl, hs]
        | broke err =>
          rw [HandlePacket_active M env err hd hr hl hs]
          rcases copyWithChannel_report M env.fwd with ⟨_, _, _, _, v, _, _, _, _, hq⟩ | ⟨_, _, hq⟩
          · obtain ⟨_, h1, h2⟩ := finish_sent err v _ hq
            cases err with
            | some e => simp [h1 e rfl]
            | none => simp [h2 rfl, hq]
          · have h := (finish_silent err _ hq).2 none
            simp [h, hq]

/-- C2: for every address `addr` with `len(addr) <= MaxAddrLen` and every
payload of at most `MaxUDPPacketSize` bytes read into `b[3+MaxAddrLen:]`, the
slice that `copyWithChannel` passes to `rc.WriteTo` is three zero bytes, then
`addr`, then the payload, of total length `3 + len(addr) + n`, whatever the
reused buffer `b` held before. -/
theorem copyWithChannel_wire_format (M : Nat) (ch : Chan) (b : List Byte) (addr : Addr)
    (payload : List Byte) (tgt : Target) (writeErr : Option GoError) (rest : List FwdEvent)
    (hb : b.length = bufLen M) (ha : addr.length ≤ M)
    (hp : payload.length ≤ MaxUDPPacketSize)
    (ht : tgt = .typed addr ∨ tgt = .other (.ok addr)) :
    (∃ tail, (copyWithChannelLoop M ch b (.packet payload tgt writeErr :: rest)).trace =
        .read :: .write ([0, 0, 0] ++ addr ++ payload) :: tail) ∧
      ([0, 0, 0] ++ addr ++ payload : List Byte).length = 3 + addr.length + payload.length := by
  constructor
  · simpa using copyWithChannelLoop_packet_trace M ch b addr payload tgt writeErr rest hb ha hp ht
  · simp only [List.length_append, List.length_cons, List.length_nil]

theorem copyWithChannel_wire_format_witness :
    (∃ tail, (copyWithChannelLoop 259 ⟨1, []⟩ (makeBuf 259)
        (.packet [9, 9] (.typed [1, 127, 0, 0, 1, 0, 53]) none :: [])).trace =
        .read :: .write ([0, 0, 0] ++ [1, 127, 0, 0, 1, 0, 53] ++ [9, 9]) :: tail) ∧
      ([0, 0, 0] ++ [1, 127, 0, 0, 1, 0, 53] ++ [9, 9] : List Byte).length =
        3 + ([1, 127, 0, 0, 1, 0, 53] : Addr).length + ([9, 9] : List Byte).length :=
  copyWithChannel_wire_format 259 ⟨1, []⟩ (makeBuf 259) [1, 127, 0, 0, 1, 0, 53] [9, 9]
    (.typed [1, 127, 0, 0, 1, 0, 53]) none [] (makeBuf_length 259) (by decide) (by decide)
    (Or.inl rfl)

/-- C1: round trip of the UDP framing. For every valid address `A` (IPv4, IPv6
or domain form) of length at most `MaxAddrLen` and every payload `D` of at most
4096 bytes, the datagram that `copyWithChannel` builds for `(A, D)` and hands to
`rc.WriteTo` is decoded by the receive loop of `HandlePacket` back to `(A, D)`:
`ParseAddr` on the bytes behind the 3-byte header returns `A`, and the slice
`b[3+len(A):n]` handed to `conn.WriteFrom` is `D`. -/
theorem udp_framing_round_trip (M : Nat) (ch : Chan) (b bu : List Byte) (A : Addr)
    (D : List Byte) (tgt : Target) (writeErr wf : Option GoError) (rest : List FwdEvent)
    (hb : b.length = bufLen M) (hbu : bu.length = bufLen M)
    (hv : validAddr A = true) (ha : A.length ≤ M) (hd : D.length ≤ MaxUDPPacketSize)
    (ht : tgt = .typed A ∨ tgt = .other (.ok A)) :
    ∃ dgram tail,
      (copyWithChannelLoop M ch b (.packet D tgt writeErr :: rest)).trace =
        .read :: .write dgram :: tail ∧
      (∃ s, goSlice (readFrom bu dgram).1 3 (readFrom bu dgram).2 = some s ∧
        ParseAddr s = .ok A) ∧
      goSlice (readFrom bu dgram).1 (3 + (A.length : Int)) (readFrom bu dgram).2 = some D ∧
      (recvLoop bu [.packet dgram wf]).delivered = [(D, A)] := by
  obtain ⟨tail, htr⟩ :=
    copyWithChannelLoop_packet_trace M ch b A D tgt writeErr rest hb ha hd ht
  have hfit : 3 + A.length + D.length ≤ bu.length := by
    rw [hbu]; unfold bufLen; omega
  obtain ⟨r1, r2, r3⟩ := recv_slices bu 0 0 0 A D hfit
  have hl := recvLoop_packet bu 0 0 0 A D wf [] hv hfit
  refine ⟨0 :: 0 :: 0 :: (A ++ D), tail, htr, ?_, ?_, ?_⟩
  · rw [r1]
    exact ⟨A ++ D, r2, ParseAddr_append A D hv⟩
  · rw [r1]
    exact r3
  · rw [hl]
    cases wf with
    | none => simp [RecvState.after, recvLoop]
    | some e => rfl

theorem udp_framing_round_trip_witness :
    ∃ dgram tail,
      (copyWithChannelLoop 259 ⟨1, []⟩ (makeBuf 259)
        (.packet [9, 9] (.typed [3, 1, 97, 0, 53]) none :: [])).trace =
        .read :: .write dgram :: tail ∧
      (∃ s, goSlice (readFrom (makeBuf 259) dgram).1 3 (readFrom (makeBuf 259) dgram).2 = some s ∧
        ParseAddr s = .ok [3, 1, 97, 0, 53]) ∧
      goSlice (readFrom (makeBuf 259) dgram).1 (3 + (([3, 1, 97, 0, 53] : Addr).length : Int))
        (readFrom (makeBuf 259) dgram).2 = some [9, 9] ∧
      (recvLoop (makeBuf 259) [.packet dgram none]).delivered = [([9, 9], [3, 1, 97, 0, 53])] :=
  udp_framing_round_trip 259 ⟨1, []⟩ (makeBuf 259) (makeBuf 259) [3, 1, 97, 0, 53] [9, 9]
    (.typed [3, 1, 97, 0, 53]) none none [] (makeBuf_length 259) (makeBuf_length 259)
    (by decide) (by decide) (by decide) (Or.inl rfl)

/-- C3: result classification of `Handle`. It returns `nil` if and only if
`Dial` succeeds and `netstack.Relay` returns `nil`, or a `net.Error` whose
`Timeout()` is true, or an error matching `io.EOF` or `io.ErrClosedPipe`; when
`Dial` fails it returns that (non-nil) error; for every other relay error it
returns a non-nil error made of the context "relay error: " and the relay
error's text. -/
theorem Handle_result_classification (dial : DialEvent) (relay : Option GoError) :
    ((Handle dial relay).outcome = .returned none ↔
      (Dial dial).err = none ∧
        (relay = none ∨ ∃ err, relay = some err ∧
          (err.netTimeout = some true ∨ err.isEOF = true ∨ err.isClosedPipe = true))) ∧
    (∀ e, (Dial dial).err = some e → (Handle dial relay).outcome = .returned (some e)) ∧
    (∀ err, (Dial dial).err = none → relay = some err → err.netTimeout ≠ some true →
      err.isEOF = false → err.isClosedPipe = false →
      (Handle dial relay).outcome = .returned (some (Errorf "relay error: " err)) ∧
        (Errorf "relay error: " err).msg = "relay error: " ++ err.msg) := by
  refine ⟨?_, ?_, ?_⟩
  · cases hd : (Dial dial).err with
    | some e => simp [Handle, hd]
    | none =>
      cases relay with
      | none => simp [Handle, hd, relayResult]
      | some err =>
        by_cases ht : err.netTimeout = some true
        · simp [Handle, hd, relayResult, isTimeout, ht]
        · cases h1 : err.isEOF <;> cases h2 : err.isClosedPipe <;>
            simp [Handle, hd, relayResult, isTimeout, ht, h1, h2]
  · intro e hd
    simp [Handle, hd]
  · intro err hd hr ht h1 h2
    subst hr
    simp [Handle, hd, relayResult, isTimeout, ht, h1, h2, Errorf, GoError.msg]

/-- C4, as the code behaves: a datagram shorter than the 3-byte header makes
the slice expression `b[3:n]` panic. The receive loop faults, no decode error
is captured, and `HandlePacket` does not return. -/
theorem short_datagram_faults (M : Nat) (bu data : List Byte) (writeErr : Option GoError)
    (rest : List RecvEvent) (fwd : List FwdEvent) (hn : data.length < 3) :
    goSlice (readFrom bu data).1 3 (readFrom bu data).2 = none ∧
      (recvLoop bu (.packet data writeErr :: rest)).status = .fault ∧
      (recvLoop bu (.packet data writeErr :: rest)).delivered = [] ∧
      (HandlePacket M ⟨.ok, none, none, .packet data writeErr :: rest, fwd⟩).outcome = .fault := by
  have hs : ∀ b : List Byte, goSlice (readFrom b data).1 3 (readFrom b data).2 = none := by
    intro b
    unfold goSlice readFrom
    rw [if_neg]
    intro h
    have := h.2.1
    simp only [Nat.cast_min] at this
    omega
  have hl : ∀ b : List Byte, recvLoop b (.packet data writeErr :: rest) = ⟨[], .fault⟩ := by
    intro b
    rw [recvLoop]
    simp only [hs b]
  refine ⟨hs bu, by rw [hl], by rw [hl], ?_⟩
  simp only [HandlePacket, Dial, hl]

theorem short_datagram_faults_witness :
    goSlice (readFrom (makeBuf 259) [0, 0]).1 3 (readFrom (makeBuf 259) [0, 0]).2 = none ∧
      (recvLoop (makeBuf 259) (.packet [0, 0] none :: [])).status = .fault ∧
      (recvLoop (makeBuf 259) (.packet [0, 0] none :: [])).delivered = [] ∧
      (HandlePacket 259 ⟨.ok, none, none, .packet [0, 0] none :: [], []⟩).outcome = .fault :=
  short_datagram_faults 259 (makeBuf 259) [0, 0] none [] [] (by decide)

/-- C9: single result delivery. On `errCh := make(chan error, 1)`, whatever
`ReadTo`, address resolution and `WriteTo` answer, `copyWithChannel` never has
to wait to send. A run that goes through some iterations and ends on an event
(a failed `ReadTo`, a failed resolution, a failed `WriteTo`) returns, and what
it did is the calls of these iterations followed by one send, its only one and
its last action: `nil` when `ReadTo` returned `io.EOF` itself, the error
otherwise (that of `ReadTo` or `WriteTo` as it is, that of a failed resolution
wrapped as "resolve addr error"). Every run that returns is of this kind, and
a run that has not returned has sent nothing. -/
theorem copyWithChannel_single_result (M : Nat) (evs : List FwdEvent) :
    (copyWithChannel M ⟨1, []⟩ evs).status ≠ .blocked ∧
    (∀ pre last post v, evs = pre ++ last :: post → (∀ ev ∈ pre, ev.passes M = true) →
      FwdStop M last v →
      (copyWithChannel M ⟨1, []⟩ evs).status = .returned ∧
        (copyWithChannel M ⟨1, []⟩ evs).trace = actsOf (pre ++ [last]) ++ [.send v] ∧
        noSend (actsOf (pre ++ [last])) ∧
        (copyWithChannel M ⟨1, []⟩ evs).errCh.queue = [v]) ∧
    ((copyWithChannel M ⟨1, []⟩ evs).status = .returned →
      ∃ pre last post v, evs = pre ++ last :: post ∧ (∀ ev ∈ pre, ev.passes M = true) ∧
        FwdStop M last v) ∧
    ((copyWithChannel M ⟨1, []⟩ evs).status ≠ .returned →
      noSend (copyWithChannel M ⟨1, []⟩ evs).trace ∧
        (copyWithChannel M ⟨1, []⟩ evs).errCh.queue = []) := by
  have hstop : ∀ pre last post v, evs = pre ++ last :: post →
      (∀ ev ∈ pre, ev.passes M = true) → FwdStop M last v →
      (copyWithChannel M ⟨1, []⟩ evs).status = .returned ∧
        (copyWithChannel M ⟨1, []⟩ evs).trace = actsOf (pre ++ [last]) ++ [.send v] ∧
        noSend (actsOf (pre ++ [last])) ∧
        (copyWithChannel M ⟨1, []⟩ evs).errCh.queue = [v] := by
    intro pre last post v hevs hpre hs
    rw [hevs, copyWithChannel_stop M pre last post v hpre hs]
    exact ⟨rfl, rfl, noSend_actsOf _, rfl⟩
  rcases copyWithChannel_report M evs with ⟨hs, pre, last, post, v, hevs, hpre, hst, _, _⟩ |
    ⟨hs, hns, hq⟩
  · exact ⟨by rw [hs]; decide, hstop, fun _ => ⟨pre, last, post, v, hevs, hpre, hst⟩,
      fun hn => absurd hs hn⟩
  · refine ⟨?_, hstop, ?_, fun _ => ⟨hns, hq⟩⟩
    · rcases hs with hs | hs <;> rw [hs] <;> decide
    · intro hr
      rcases hs with hs | hs <;> rw [hs] at hr <;> exact absurd hr (by decide)

/-- C6, refuted as stated: two associations that end on benign conditions only
and whose `HandlePacket` returns a non-nil error. In the first the relay socket
is closed under the receive loop and `ReadFrom` fails with a non-timeout error;
in the second the read deadline expires and so does the forwarder's write
deadline, whose error comes back through `errCh`. -/
theorem benign_endings_returned_as_errors :
    (HandlePacket 259 envRelayClosed).outcome =
        .returned (some (Errorf "read packet error: " errClosed)) ∧
      (HandlePacket 259 envWriteTimeout).outcome = .returned (some errTimeout) := by
  constructor
  · rfl
  · have hf := copyWithChannel_stop 259 [] (.packet [9] (.typed [1, 127, 0, 0, 1, 0, 53])
      (some errTimeout)) [] (some errTimeout) (fun _ h => absurd h (List.not_mem_nil _))
      (.writeErrTyped _ _ _ (by decide))
    have hq : (copyWithChannel 259 ⟨1, []⟩ envWriteTimeout.fwd).errCh.queue =
        [some errTimeout] := by
      have hfwd : envWriteTimeout.fwd =
          [] ++ .packet [9] (.typed [1, 127, 0, 0, 1, 0, 53]) (some errTimeout) :: [] := rfl
      rw [hfwd, hf]
    rw [HandlePacket_active 259 envWriteTimeout none rfl rfl rfl rfl]
    exact (finish_sent none (some errTimeout) _ hq).2.2 rfl

/-- C6, amended: `HandlePacket` returns `nil` exactly when the association was
set up, the receive loop was left on a read timeout of the relay socket, and
the forwarder ended on a `ReadTo` that returned `io.EOF`. With the association
set up and the forwarder having reported: a receive loop left on a non-timeout
read error of the relay socket makes `HandlePacket` return that error, wrapped
as "read packet error"; and after a read timeout, the error on which the
forwarder ended (a `WriteTo` error, timeouts included, a `ReadTo` error other
than `io.EOF`, a wrapped resolution error) is returned. -/
theorem HandlePacket_nil_iff_timeout_and_eof (M : Nat) (env : PacketEnv) :
    ((HandlePacket M env).outcome = .returned none ↔
      (Dial env.dial).err = none ∧ env.resolve = none ∧ env.listen = none ∧
        (∃ pre er post, env.recv = pre ++ .readErr er :: post ∧
          (∀ ev ∈ pre, ev.passes M = true) ∧ isTimeout er = true) ∧
        (∃ pre post, env.fwd = pre ++ .readErr ioEOF :: post ∧
          (∀ ev ∈ pre, ev.passes M = true))) ∧
    (∀ pre er post fpre flast fpost v,
      (Dial env.dial).err = none → env.resolve = none → env.listen = none →
      env.recv = pre ++ .readErr er :: post → (∀ ev ∈ pre, ev.passes M = true) →
      isTimeout er = false →
      env.fwd = fpre ++ flast :: fpost → (∀ ev ∈ fpre, ev.passes M = true) →
      FwdStop M flast v →
      (HandlePacket M env).outcome = .returned (some (Errorf "read packet error: " er))) ∧
    (∀ pre er post fpre flast fpost e,
      (Dial env.dial).err = none → env.resolve = none → env.listen = none →
      env.recv = pre ++ .readErr er :: post → (∀ ev ∈ pre, ev.passes M = true) →
      isTimeout er = true →
      env.fwd = fpre ++ flast :: fpost → (∀ ev ∈ fpre, ev.passes M = true) →
      FwdStop M flast (some e) →
      (HandlePacket M env).outcome = .returned (some e)) := by
  have hsel : ∀ pre last post err fpre flast fpost v,
      (Dial env.dial).err = none → env.resolve = none → env.listen = none →
      env.recv = pre ++ last :: post → (∀ ev ∈ pre, ev.passes M = true) →
      RecvStop M last err →
      env.fwd = fpre ++ flast :: fpost → (∀ ev ∈ fpre, ev.passes M = true) →
      FwdStop M flast v →
      (∀ e, err = some e → (HandlePacket M env).outcome = .returned (some e)) ∧
        (err = none → (HandlePacket M env).outcome = .returned v) := by
    intro pre last post err fpre flast fpost v hd hr hl hevs hpre hstop hfwd hfpre hfstop
    have hs : (recvLoop (makeBuf M) env.recv).status = .broke err := by
      rw [hevs]
      exact recvLoop_stop M last err post hstop pre (makeBuf M) (makeBuf_length M) hpre
    have hq : (copyWithChannel M ⟨1, []⟩ env.fwd).errCh.queue = [v] := by
      rw [hfwd, copyWithChannel_stop M fpre flast fpost v hfpre hfstop]
    rw [HandlePacket_active M env err hd hr hl hs]
    exact (finish_sent err v _ hq).2
  refine ⟨?_, ?_, ?_⟩
  · constructor
    · intro h
      obtain ⟨hd, hr, hl, hs, hq⟩ := (HandlePacket_nil M env).mp h
      refine ⟨hd, hr, hl, ?_, ?_⟩
      · obtain ⟨pre, last, post, hevs, hpre, hstop⟩ :=
          recvLoop_broke M env.recv (makeBuf M) none (makeBuf_length M) hs
        cases hstop with
        | timeout er ht => exact ⟨pre, er, post, hevs, hpre, ht⟩
      · rcases copyWithChannel_report M env.fwd with
          ⟨_, pre, last, post, v, hevs, hpre, hstop, _, hq2⟩ | ⟨_, _, hq2⟩
        · rw [hq2] at hq
          simp only [List.cons.injEq, and_true] at hq
          subst hq
          cases hstop with
          | eof => exact ⟨pre, post, hevs, hpre⟩
        · rw [hq2] at hq
          exact absurd hq (by simp)
    · rintro ⟨hd, hr, hl, ⟨pre, er, post, hevs, hpre, ht⟩, ⟨fpre, fpost, hfwd, hfpre⟩⟩
      exact (hsel pre _ post none fpre _ fpost none hd hr hl hevs hpre (.timeout er ht)
        hfwd hfpre .eof).2 rfl
  · intro pre er post fpre flast fpost v hd hr hl hevs hpre ht hfwd hfpre hfstop
    exact (hsel pre _ post _ fpre flast fpost v hd hr hl hevs hpre (.readErr er ht)
      hfwd hfpre hfstop).1 _ rfl
  · intro pre er post fpre flast fpost e hd hr hl hevs hpre ht hfwd hfpre hfstop
    exact (hsel pre _ post none fpre flast fpost (some e) hd hr hl hevs hpre (.timeout er ht)
      hfwd hfpre hfstop).2 rfl

/-- C7, refuted as stated: on the normal end of an idle association
`HandlePacket` calls `Close` twice on each of the local flow, the relay socket
and the proxy connection (lines 151-153, then the deferred calls). -/
theorem HandlePacket_closes_each_leg_twice :
    (HandlePacket 259 envIdle).outcome = .returned none ∧
      (HandlePacket 259 envIdle).closed.count .localFlow = 2 ∧
      (HandlePacket 259 envIdle).closed.count .relaySock = 2 ∧
      (HandlePacket 259 envIdle).closed.count .proxyConn = 2 := by
  refine ⟨rfl, ?_, ?_, ?_⟩ <;> decide

/-- C7, amended: on every exit path other than a handshake failure inside
`Dial`, each connection or socket the call was given or has opened is closed:
exactly once by `Handle` and by the exits of `HandlePacket` taken before the
relay socket exists, exactly twice by `HandlePacket` once the association is
active. -/
theorem close_calls_per_exit_path (M : Nat) (dial : DialEvent) (relay : Option GoError)
    (env : PacketEnv) :
    ((∀ e, dial ≠ .handshakeErr e) →
      ∀ r ∈ Res.localFlow :: (Handle dial relay).opened,
        (Handle dial relay).closed.count r = 1) ∧
    ((∀ e, env.dial ≠ .handshakeErr e) → ∀ err,
      (HandlePacket M env).outcome = .returned err →
      ∀ r ∈ Res.localFlow :: (HandlePacket M env).opened,
        (HandlePacket M env).closed.count r =
          if Res.relaySock ∈ (HandlePacket M env).opened then 2 else 1) := by
  constructor
  · intro hd r hr
    cases dial with
    | dialErr e =>
      simp only [Handle, Dial, List.mem_cons, List.mem_nil_iff, or_false] at hr ⊢
      subst hr
      decide
    | handshakeErr e => exact absurd rfl (hd e)
    | ok =>
      simp only [Handle, Dial, List.mem_cons, List.mem_nil_iff, or_false] at hr ⊢
      rcases hr with rfl | rfl <;> decide
  · intro hd err hout r hr
    cases hdial : env.dial with
    | dialErr e =>
      simp only [HandlePacket, hdial, Dial, List.mem_cons, List.mem_nil_iff, or_false] at hr ⊢
      subst hr
      decide
    | handshakeErr e => exact absurd hdial (hd e)
    | ok =>
      cases hres : env.resolve with
      | some e =>
        simp only [HandlePacket, hdial, hres, Dial, List.mem_cons, List.mem_nil_iff,
          or_false] at hr ⊢
        rcases hr with rfl | rfl <;> decide
      | none =>
        cases hlis : env.listen with
        | some e =>
          simp only [HandlePacket, hdial, hres, hlis, Dial, List.mem_cons, List.mem_nil_iff,
            or_false] at hr ⊢
          rcases hr with rfl | rfl <;> decide
        | none =>
          cases hs : (recvLoop (makeBuf M) env.recv).status with
          | running =>
            simp only [HandlePacket, hdial, hres, hlis, hs, Dial] at hout
            split at hout <;> exact absurd hout (by simp)
          | fault => simp [HandlePacket, hdial, hres, hlis, hs, Dial] at hout
          | broke e =>
            simp only [HandlePacket, hdial, hres, hlis, hs, Dial, finish] at hout hr ⊢
            cases hc : (copyWithChannel M ⟨1, []⟩ env.fwd).errCh.recv with
            | none =>
              simp only [hc] at hout
              split at hout <;> exact absurd hout (by simp)
            | some p =>
              simp only [hc, List.mem_cons, List.mem_nil_iff, or_false] at hr ⊢
              rcases hr with rfl | rfl | rfl <;> decide

/-- C10, refuted as stated: a datagram whose reserved bytes are 1 and 2 is not
rejected; its payload is written to the local flow, tagged with the decoded
address, and the loop goes on with no error captured. -/
theorem nonzero_reserved_bytes_accepted :
    (recvLoop (makeBuf 259)
        [.packet (1 :: 2 :: 0 :: ([1, 127, 0, 0, 1, 0, 53] ++ [42])) none]).delivered =
        [([42], [1, 127, 0, 0, 1, 0, 53])] ∧
      (recvLoop (makeBuf 259)
        [.packet (1 :: 2 :: 0 :: ([1, 127, 0, 0, 1, 0, 53] ++ [42])) none]).status =
        .running := by
  have h := recvLoop_packet (makeBuf 259) 1 2 0 [1, 127, 0, 0, 1, 0, 53] [42] none []
    (by decide) (by rw [makeBuf_length]; decide)
  rw [h]
  exact ⟨rfl, rfl⟩

/-- C10, amended: the receive loop does not look at the three header bytes.
Whatever they are, a datagram that fits the buffer and carries a valid address
`A` behind them has the bytes behind the address written to the local flow,
tagged `A`; and a datagram is turned down with a captured decode error, nothing
being delivered, when `ParseAddr` fails on the bytes behind the header. -/
theorem recvLoop_ignores_header_bytes (bu : List Byte) (h0 h1 h2 : Byte) (A D : List Byte)
    (writeErr : Option GoError) (rest : List RecvEvent)
    (hv : validAddr A = true) (hfit : 3 + A.length + D.length ≤ bu.length) :
    (∃ tail, (recvLoop bu (.packet (h0 :: h1 :: h2 :: (A ++ D)) writeErr :: rest)).delivered =
        (D, A) :: tail) ∧
    (∀ body er, 3 + body.length ≤ bu.length → ParseAddr body = .error er →
      (recvLoop bu (.packet (h0 :: h1 :: h2 :: body) writeErr :: rest)).delivered = [] ∧
        (recvLoop bu (.packet (h0 :: h1 :: h2 :: body) writeErr :: rest)).status =
          .broke (some (Errorf "parse addr error: " er))) := by
  constructor
  · rw [recvLoop_packet bu h0 h1 h2 A D writeErr rest hv hfit]
    cases writeErr with
    | none => exact ⟨_, rfl⟩
    | some e => exact ⟨_, rfl⟩
  · intro body er hb hp
    rw [recvLoop_parse_error bu h0 h1 h2 body er writeErr rest hb hp]
    exact ⟨rfl, rfl⟩

theorem recvLoop_ignores_header_bytes_witness :
    (∃ tail, (recvLoop (makeBuf 259)
        (.packet (255 :: 7 :: 1 :: ([3, 1, 97, 0, 53] ++ [42])) none :: [])).delivered =
        ([42], [3, 1, 97, 0, 53]) :: tail) ∧
    (∀ body er, 3 + body.length ≤ (makeBuf 259).length → ParseAddr body = .error er →
      (recvLoop (makeBuf 259) (.packet (255 :: 7 :: 1 :: body) none :: [])).delivered = [] ∧
        (recvLoop (makeBuf 259) (.packet (255 :: 7 :: 1 :: body) none :: [])).status =
          .broke (some (Errorf "parse addr error: " er))) :=
  recvLoop_ignores_header_bytes (makeBuf 259) 255 7 1 [3, 1, 97, 0, 53] [42] none []
    (by decide) (by rw [makeBuf_length]; decide)

end Socks
